import Mathlib

/-!
Shallow embedding of `duckdb-polars/src/lib.rs`: the error type
`DuckDBPolarsError`, its `From` conversions, and the core converter
`arrowrs_record_batches_to_polars_df`, together with models of the small
pieces of external library behaviour the converter relies on
(`Series::try_from`, `DataFrame::new_no_checks`,
`polars_core::utils::accumulate_dataframes_vertical_unchecked` with the
`Series::append(..).expect("should not fail")` inside its
`vstack_mut_unchecked` step, which panics on a column data-type mismatch,
and Rust's panicking `Vec` indexing `rbs[0]`).
-/

namespace DuckdbPolars

/-- Cell values of a column.  The converter never inspects individual values
(the arrow-to-arrow2 reinterpretation is structural), so a single concrete
value type suffices for the embedding. -/
abbrev Value := Int

/-- Model of `polars::prelude::PolarsError` as observed by this crate: only
its `Display` message is ever read (`format!("Polars error: {}", e)`). -/
structure PolarsError where
  msg : String
deriving Repr, DecidableEq

/-- Model of `duckdb::Error` as observed by this crate: only its `Display`
message is ever read (`format!("DuckDB error: {}", e)`). -/
structure DuckDBError where
  msg : String
deriving Repr, DecidableEq

/-- The `enum DuckDBPolarsError` from `lib.rs` lines 13-18, with its three
variants `Internal { msg }`, `Polars { msg, source }`, `DuckDB { msg, source }`. -/
inductive DuckDBPolarsError where
  | Internal (msg : String)
  | Polars (msg : String) (source : PolarsError)
  | DuckDB (msg : String) (source : DuckDBError)
deriving Repr, DecidableEq

/-- The `Display` impl for `DuckDBPolarsError` (lib.rs lines 20-29): it
prints the `msg` field of whichever variant is present. -/
def DuckDBPolarsError.display : DuckDBPolarsError → String
  | .Internal msg => msg
  | .Polars msg _ => msg
  | .DuckDB msg _ => msg

/-- The `impl From<PolarsError> for DuckDBPolarsError` (lib.rs lines 31-38):
wraps the source error, prefixing its display with `"Polars error: "`. -/
def DuckDBPolarsError.fromPolars (e : PolarsError) : DuckDBPolarsError :=
  .Polars ("Polars error: " ++ e.msg) e

/-- The `impl From<DuckDBError> for DuckDBPolarsError` (lib.rs lines 40-47). -/
def DuckDBPolarsError.fromDuckDB (e : DuckDBError) : DuckDBPolarsError :=
  .DuckDB ("DuckDB error: " ++ e.msg) e

/-- Model of the element data type of a column (`DataType` in both array
libraries and in polars).  The embedded code observes only equality of data
types (`Series::append` inside the unchecked vertical stacking rejects a
mismatch), so an equality-comparable tag is all the model needs. -/
inductive DType where
  | int64
  | utf8
  | other (tag : Nat)
deriving Repr, DecidableEq

/-- Model of one arrow `ArrayRef` column of a record batch.  `values` are the
logical cells, modeled uniformly (the `to_data`/`from_data` hop between the
two arrow crates is a structural, value-preserving reinterpretation);
`dtype` is the column's data-type tag, the component of the arrow `DataType`
that the embedded code compares.  `tryFromError` records whether the later
`Series::try_from((name, arrow2_array))` construction rejects this array,
and with which `PolarsError`; `none` means it succeeds. -/
structure ColumnArray where
  dtype : DType
  values : List Value
  tryFromError : Option PolarsError
deriving Repr, DecidableEq

/-- Model of `duckdb::arrow::record_batch::RecordBatch`: the field names of
`rb.schema().fields()` and the column arrays of `rb.columns()`.  (Arrow's
`RecordBatch::try_new` guarantees that the two lists have equal length and
that all columns have equal length; the converter trusts but never rechecks
this, so the model keeps the two lists independent.) -/
structure RecordBatch where
  schemaFields : List String
  columns : List ColumnArray
deriving Repr, DecidableEq

/-- Model of `RecordBatch::num_rows()`: the common length of the batch's columns
(zero for a batch with no columns). -/
def RecordBatch.numRows (rb : RecordBatch) : Nat :=
  match rb.columns with
  | [] => 0
  | c :: _ => c.values.length

/-- The values of the column of `rb` at position `j` (empty when `j` is out
of range); used to state concatenation properties. -/
def RecordBatch.colValues (rb : RecordBatch) (j : Nat) : List Value :=
  (rb.columns[j]?.map ColumnArray.values).getD []

/-- Model of a polars `Series`: a named, typed column. -/
structure Series where
  name : String
  dtype : DType
  values : List Value
deriving Repr, DecidableEq

/-- Model of a polars `DataFrame`: a plain list of columns
(`DataFrame::new_no_checks` wraps the vector without validation). -/
structure DataFrame where
  columns : List Series
deriving Repr, DecidableEq

/-- Model of `DataFrame::height()`: the length of the first column, `0` for a
column-less frame. -/
def DataFrame.height (df : DataFrame) : Nat :=
  match df.columns with
  | [] => 0
  | s :: _ => s.values.length

/-- The values of the column of `df` at position `j` (empty when `j` is out
of range); used to state concatenation properties. -/
def DataFrame.colValues (df : DataFrame) (j : Nat) : List Value :=
  (df.columns[j]?.map Series.values).getD []

/-- Model of `Series::try_from((name, arrow2_array))` (lib.rs line 77): fails
with the array's construction error when the target format rejects it,
otherwise yields the named series over the same values, preserving the
array's data type. -/
def Series.tryFrom (name : String) (arr : ColumnArray) : Except PolarsError Series :=
  match arr.tryFromError with
  | some e => .error e
  | none => .ok ⟨name, arr.dtype, arr.values⟩

/-- The per-column closure of lib.rs lines 66-78: reinterpret the array
(structural, infallible in the model), look the name up at index `i` in the
shared `column_names` list — failing with the `Internal` error
`"Column name not found for index {i}"` when `i` is out of range — and then
build the series, mapping a `PolarsError` through `From`. -/
def convertColumn (column_names : List String) (i : Nat) (array : ColumnArray) :
    Except DuckDBPolarsError Series :=
  match column_names[i]? with
  | none => .error (.Internal ("Column name not found for index " ++ toString i))
  | some name => (Series.tryFrom name array).mapError DuckDBPolarsError.fromPolars

/-- Indexed fallible map, the sequential semantics of
`par_iter().enumerate().map(f).collect::<Result<Vec<_>, _>>()`: results are
assembled in index order and the first (in index order) failure is
returned. -/
def mapWithIndexM (f : Nat → α → Except ε β) : Nat → List α → Except ε (List β)
  | _, [] => .ok []
  | i, x :: xs =>
    match f i x with
    | .error e => .error e
    | .ok y =>
      match mapWithIndexM f (i + 1) xs with
      | .error e => .error e
      | .ok ys => .ok (y :: ys)

/-- The per-batch closure of lib.rs lines 61-82: convert every column of the
batch (enumerated, order-preserving collection) and wrap the vector with
`DataFrame::new_no_checks`.  The batch's own schema is never consulted. -/
def convertBatch (column_names : List String) (rb : RecordBatch) :
    Except DuckDBPolarsError DataFrame :=
  match mapWithIndexM (convertColumn column_names) 0 rb.columns with
  | .error e => .error e
  | .ok s_vec => .ok ⟨s_vec⟩

/-- The batch-level `par_iter().map(..).collect::<Result<Vec<_>, _>>()` of
lib.rs lines 59-83, sequential semantics: segments in original batch order,
first failing batch's error returned. -/
def convertBatches (column_names : List String) :
    List RecordBatch → Except DuckDBPolarsError (List DataFrame)
  | [] => .ok []
  | rb :: rbs =>
    match convertBatch column_names rb with
    | .error e => .error e
    | .ok df =>
      match convertBatches column_names rbs with
      | .error e => .error e
      | .ok dfs => .ok (df :: dfs)

/-- Model of `Series::append`: appends the right column's rows onto the
left, keeping the left's name and data type; returns polars' mismatch error
when the two data types differ. -/
def Series.append (l r : Series) : Except PolarsError Series :=
  if l.dtype = r.dtype then
    .ok { l with values := l.values ++ r.values }
  else
    .error { msg := "cannot append Series; data types do not match" }

/-- One step of polars' `DataFrame::vstack_mut_unchecked`: the accumulator's
columns are zipped positionally with the other frame's columns and each pair
joined with `Series::append(..).expect("should not fail")`; accumulator
columns beyond the other frame keep their values, and other-frame columns
beyond the accumulator are dropped.  No width or name check is performed,
but `append` itself rejects a data-type mismatch, and the surrounding
`expect` then panics — `none` models that panic. -/
def vstackColumns : List Series → List Series → Option (List Series)
  | [], _ => some []
  | ls, [] => some ls
  | l :: ls, r :: rs =>
    match l.append r with
    | .error _ => none
    | .ok l2 =>
      match vstackColumns ls rs with
      | none => none
      | some rest => some (l2 :: rest)

/-- Model of `DataFrame::vstack_mut_unchecked` on whole frames; `none` is
the panic of the `expect` inside it. -/
def DataFrame.vstackUnchecked (acc other : DataFrame) : Option DataFrame :=
  match vstackColumns acc.columns other.columns with
  | none => none
  | some cols => some ⟨cols⟩

/-- The fold inside `accumulate_dataframes_vertical_unchecked`: vstack every
remaining frame onto the accumulator, stopping at the first panic. -/
def vstackAll (acc : DataFrame) : List DataFrame → Option DataFrame
  | [] => some acc
  | df :: dfs =>
    match acc.vstackUnchecked df with
    | none => none
    | some acc2 => vstackAll acc2 dfs

/-- Model of `polars_core::utils::accumulate_dataframes_vertical_unchecked`:
take the first frame and vstack the rest onto it, unchecked.  `none` models
a panic: the Rust function unwraps the first element (panicking on an empty
iterator — unreachable at its only call site here, which passes one frame
per batch of a non-empty sequence), and each vstack step can panic on a
data-type mismatch. -/
def accumulate_dataframes_vertical_unchecked : List DataFrame → Option DataFrame
  | [] => none
  | df :: dfs => vstackAll df dfs

/-- Outcome of running `arrowrs_record_batches_to_polars_df`: a normal
tagged `Result` (ok or error), or a Rust panic (which unwinds and returns no
`Result` at all). -/
inductive RunResult where
  | panicked (msg : String)
  | ok (df : DataFrame)
  | error (e : DuckDBPolarsError)
deriving Repr, DecidableEq

/-- Whether a `RunResult` is an `Internal`-variant error result. -/
def RunResult.isInternalError : RunResult → Bool
  | .error (.Internal _) => true
  | _ => false

/-- Whether a `RunResult` is a panic. -/
def RunResult.isPanicked : RunResult → Bool
  | .panicked _ => true
  | _ => false

/-- The final `Ok(accumulate_dataframes_vertical_unchecked(dfs))` step of
lib.rs line 85: an `Ok` table when the unchecked stacking goes through, the
`expect("should not fail")` panic when it hits a data-type mismatch. -/
def assembleOrPanic (dfs : List DataFrame) : RunResult :=
  match accumulate_dataframes_vertical_unchecked dfs with
  | none => .panicked "should not fail"
  | some df => .ok df

/-- The converter `arrowrs_record_batches_to_polars_df` (lib.rs lines 49-86).  `rbs[0]` on
an empty vector panics with Rust's index-out-of-bounds message; otherwise
the column names are cloned from the first batch's schema fields, every
batch is converted against them, and on success the segments are stacked
with the unchecked vertical accumulator (which can itself panic). -/
def arrowrs_record_batches_to_polars_df (rbs : List RecordBatch) : RunResult :=
  match rbs with
  | [] => .panicked "index out of bounds: the len is 0 but the index is 0"
  | rb0 :: _ =>
    let column_names := rb0.schemaFields
    match convertBatches column_names rbs with
    | .error e => .error e
    | .ok dfs => assembleOrPanic dfs

/-- First error encountered when the work items of `xs` are executed in the
completion order given by `sched` (a list of indices into `xs`); `none` when
every scheduled item succeeds.  Models which failure a racing
`collect::<Result<_, _>>` observes first. -/
def firstSchedError (f : Nat → α → Except ε β) (xs : List α) : List Nat → Option ε
  | [] => none
  | i :: rest =>
    match xs[i]? with
    | none => firstSchedError f xs rest
    | some x =>
      match f i x with
      | .error e => some e
      | .ok _ => firstSchedError f xs rest

/-- Parallel indexed map-collect under an explicit completion schedule:
items complete in `sched` order (so the reported error, if any, is the first
failure in completion order), but successful results are assembled by
original index, exactly as rayon's indexed `collect` does. -/
def parMapCollect (sched : List Nat) (f : Nat → α → Except ε β) (xs : List α) :
    Except ε (List β) :=
  match firstSchedError f xs sched with
  | some e => .error e
  | none => mapWithIndexM f 0 xs

/-- Version of `convertBatch` under an explicit column completion schedule. -/
def convertBatchSched (csched : List Nat) (column_names : List String)
    (rb : RecordBatch) : Except DuckDBPolarsError DataFrame :=
  match parMapCollect csched (convertColumn column_names) rb.columns with
  | .error e => .error e
  | .ok s_vec => .ok ⟨s_vec⟩

/-- Version of `arrowrs_record_batches_to_polars_df` under explicit completion
schedules: `bsched` orders batch completions and `csched b` orders the
column completions inside the batch at position `b`. -/
def arrowrs_record_batches_to_polars_df_sched (bsched : List Nat)
    (csched : Nat → List Nat) (rbs : List RecordBatch) : RunResult :=
  match rbs with
  | [] => .panicked "index out of bounds: the len is 0 but the index is 0"
  | rb0 :: _ =>
    let column_names := rb0.schemaFields
    match parMapCollect bsched
        (fun b rb => convertBatchSched (csched b) column_names rb) rbs with
    | .error e => .error e
    | .ok dfs => assembleOrPanic dfs

/-! Concrete columns and batches used as evaluation inputs below. -/

def exCol1 : ColumnArray := { dtype := .int64, values := [1], tryFromError := none }

def exCol2 : ColumnArray := { dtype := .int64, values := [2], tryFromError := none }

def exCol3 : ColumnArray := { dtype := .int64, values := [3], tryFromError := none }

def exCol4 : ColumnArray := { dtype := .int64, values := [4], tryFromError := none }

def exColBad : ColumnArray :=
  { dtype := .int64, values := [], tryFromError := some { msg := "boom" } }

def exColStr : ColumnArray := { dtype := .utf8, values := [7], tryFromError := none }

def exBatchA : RecordBatch := { schemaFields := ["a"], columns := [exCol1] }

def exBatchAB : RecordBatch := { schemaFields := ["a", "b"], columns := [exCol1, exCol2] }

def exBatchAB2 : RecordBatch := { schemaFields := ["a", "b"], columns := [exCol3, exCol4] }

def exBatchWide : RecordBatch := { schemaFields := ["a"], columns := [exCol1, exCol2] }

def exBatchNarrow : RecordBatch := { schemaFields := [], columns := [exCol3] }

def exBatchBad : RecordBatch := { schemaFields := ["a"], columns := [exColBad] }

def exBatchStr : RecordBatch := { schemaFields := ["a"], columns := [exColStr] }

def exBatchXY : RecordBatch := { schemaFields := ["x", "y"], columns := [exCol1, exCol2] }

def exSegAB : DataFrame :=
  { columns := [{ name := "a", dtype := .int64, values := [1] },
    { name := "b", dtype := .int64, values := [2] }] }

def exTable : DataFrame :=
  { columns := [{ name := "a", dtype := .int64, values := [1, 3] },
    { name := "b", dtype := .int64, values := [2, 4] }] }

theorem getElem?_some_lt {l : List α} {i : Nat} {a : α} (h : l[i]? = some a) :
    i < l.length := by
  by_contra hge
  rw [List.getElem?_eq_none (by omega)] at h
  exact absurd h (by simp)

/-! Basic lemmas about the indexed fallible map. -/

theorem mapWithIndexM_ok_length {f : Nat → α → Except ε β} {n : Nat} {xs : List α}
    {ys : List β} (h : mapWithIndexM f n xs = .ok ys) : ys.length = xs.length := by
  induction xs generalizing n ys with
  | nil => simp [mapWithIndexM] at h; simp [← h]
  | cons x xs ih =>
    simp only [mapWithIndexM] at h
    cases hf : f n x with
    | error e => rw [hf] at h; exact absurd h (by simp)
    | ok y =>
      rw [hf] at h
      cases hrec : mapWithIndexM f (n + 1) xs with
      | error e => rw [hrec] at h; exact absurd h (by simp)
      | ok ys' =>
        rw [hrec] at h
        cases h
        simp [ih hrec]

theorem mapWithIndexM_ok_get {f : Nat → α → Except ε β} {n : Nat} {xs : List α}
    {ys : List β} (h : mapWithIndexM f n xs = .ok ys) :
    ∀ i x, xs[i]? = some x → ∃ y, ys[i]? = some y ∧ f (n + i) x = .ok y := by
  induction xs generalizing n ys with
  | nil => intro i x hx; simp at hx
  | cons x xs ih =>
    intro i z hz
    simp only [mapWithIndexM] at h
    cases hf : f n x with
    | error e => rw [hf] at h; exact absurd h (by simp)
    | ok y =>
      rw [hf] at h
      cases hrec : mapWithIndexM f (n + 1) xs with
      | error e => rw [hrec] at h; exact absurd h (by simp)
      | ok ys' =>
        rw [hrec] at h
        cases h
        cases i with
        | zero =>
          simp at hz
          subst hz
          exact ⟨y, by simp, by simpa using hf⟩
        | succ i =>
          simp only [List.getElem?_cons_succ] at hz
          obtain ⟨w, hw, hfw⟩ := ih hrec i z hz
          exact ⟨w, by simpa using hw, by simpa [Nat.add_comm, Nat.add_left_comm] using hfw⟩

theorem mapWithIndexM_ok_of_forall {f : Nat → α → Except ε β} {n : Nat} {xs : List α}
    (h : ∀ i x, xs[i]? = some x → ∃ y, f (n + i) x = .ok y) :
    ∃ ys, mapWithIndexM f n xs = .ok ys := by
  induction xs generalizing n with
  | nil => exact ⟨[], rfl⟩
  | cons x xs ih =>
    obtain ⟨y, hy⟩ := h 0 x (by simp)
    obtain ⟨ys, hys⟩ := ih (fun i z hz => by
      obtain ⟨w, hw⟩ := h (i + 1) z (by simpa using hz)
      exact ⟨w, by rw [show n + 1 + i = n + (i + 1) by omega]; exact hw⟩)
    refine ⟨y :: ys, ?_⟩
    simp only [mapWithIndexM]
    rw [show n + 0 = n by omega] at hy
    rw [hy, hys]

theorem mapWithIndexM_error_spec {f : Nat → α → Except ε β} {n : Nat} {xs : List α}
    {e : ε} (h : mapWithIndexM f n xs = .error e) :
    ∃ i x, xs[i]? = some x ∧ f (n + i) x = .error e := by
  induction xs generalizing n with
  | nil => exact absurd h (by simp [mapWithIndexM])
  | cons x xs ih =>
    simp only [mapWithIndexM] at h
    cases hf : f n x with
    | error e' =>
      rw [hf] at h
      cases h
      exact ⟨0, x, by simp, by simpa using hf⟩
    | ok y =>
      rw [hf] at h
      cases hrec : mapWithIndexM f (n + 1) xs with
      | error e' =>
        rw [hrec] at h
        cases h
        obtain ⟨i, z, hz, hfz⟩ := ih hrec
        exact ⟨i + 1, z, by simpa using hz, by simpa [Nat.add_comm, Nat.add_left_comm] using hfz⟩
      | ok ys => rw [hrec] at h; exact absurd h (by simp)

theorem mapWithIndexM_error_at {f : Nat → α → Except ε β} {n k : Nat} {xs : List α}
    {xk : α} {e : ε} (hk : xs[k]? = some xk) (hfk : f (n + k) xk = .error e)
    (hpre : ∀ i x, i < k → xs[i]? = some x → ∃ y, f (n + i) x = .ok y) :
    mapWithIndexM f n xs = .error e := by
  induction xs generalizing n k with
  | nil => simp at hk
  | cons x xs ih =>
    cases k with
    | zero =>
      simp at hk
      subst hk
      simp only [mapWithIndexM]
      rw [show n + 0 = n by omega] at hfk
      rw [hfk]
    | succ k =>
      obtain ⟨y, hy⟩ := hpre 0 x (by omega) (by simp)
      simp only [mapWithIndexM]
      rw [show n + 0 = n by omega] at hy
      rw [hy]
      rw [ih (k := k) (by simpa using hk)
        (by simpa [Nat.add_comm, Nat.add_left_comm] using hfk)
        (fun i z hik hz => by
          obtain ⟨w, hw⟩ := hpre (i + 1) z (by omega) (by simpa using hz)
          exact ⟨w, by rw [show n + 1 + i = n + (i + 1) by omega]; exact hw⟩)]

/-! Lemmas about the per-column conversion. -/

theorem convertColumn_ok_iff {column_names : List String} {i : Nat} {arr : ColumnArray}
    {s : Series} :
    convertColumn column_names i arr = .ok s ↔
      ∃ name, column_names[i]? = some name ∧ arr.tryFromError = none ∧
        s = ⟨name, arr.dtype, arr.values⟩ := by
  unfold convertColumn Series.tryFrom
  cases hn : column_names[i]? with
  | none => simp
  | some name =>
    cases he : arr.tryFromError with
    | none => simp [Except.mapError, eq_comm]
    | some pe => simp [Except.mapError]

theorem convertColumn_error_cases {column_names : List String} {i : Nat}
    {arr : ColumnArray} {e : DuckDBPolarsError}
    (h : convertColumn column_names i arr = .error e) :
    (column_names[i]? = none ∧
      e = .Internal ("Column name not found for index " ++ toString i)) ∨
    (∃ name pe, column_names[i]? = some name ∧ arr.tryFromError = some pe ∧
      e = .Polars ("Polars error: " ++ pe.msg) pe) := by
  unfold convertColumn at h
  cases hn : column_names[i]? with
  | none =>
    rw [hn] at h
    cases h
    exact Or.inl ⟨rfl, rfl⟩
  | some name =>
    rw [hn] at h
    unfold Series.tryFrom at h
    cases he : arr.tryFromError with
    | none => rw [he] at h; exact absurd h (by simp [Except.mapError])
    | some pe =>
      rw [he] at h
      simp only [Except.mapError] at h
      cases h
      exact Or.inr ⟨name, pe, rfl, rfl, rfl⟩

/-! Lemmas about the per-batch conversion. -/

theorem convertBatch_ok_spec {column_names : List String} {rb : RecordBatch}
    {df : DataFrame} (h : convertBatch column_names rb = .ok df) :
    df.columns.length = rb.columns.length ∧
      ∀ (j : Nat) (arr : ColumnArray), rb.columns[j]? = some arr →
        ∃ name, column_names[j]? = some name ∧
          df.columns[j]? = some ⟨name, arr.dtype, arr.values⟩ := by
  unfold convertBatch at h
  cases hm : mapWithIndexM (convertColumn column_names) 0 rb.columns with
  | error e => rw [hm] at h; exact absurd h (by simp)
  | ok s_vec =>
    rw [hm] at h
    cases h
    refine ⟨mapWithIndexM_ok_length hm, ?_⟩
    intro j arr hj
    obtain ⟨s, hs, hconv⟩ := mapWithIndexM_ok_get hm j arr hj
    rw [show 0 + j = j by omega] at hconv
    obtain ⟨name, hname, -, hsval⟩ := convertColumn_ok_iff.mp hconv
    exact ⟨name, hname, by rw [hs, hsval]⟩

theorem convertBatch_error_spec {column_names : List String} {rb : RecordBatch}
    {e : DuckDBPolarsError} (h : convertBatch column_names rb = .error e) :
    ∃ i arr, rb.columns[i]? = some arr ∧ convertColumn column_names i arr = .error e := by
  unfold convertBatch at h
  cases hm : mapWithIndexM (convertColumn column_names) 0 rb.columns with
  | error e' =>
    rw [hm] at h
    cases h
    obtain ⟨i, arr, hi, hc⟩ := mapWithIndexM_error_spec hm
    exact ⟨i, arr, hi, by rw [show i = 0 + i by omega]; exact hc⟩
  | ok s_vec => rw [hm] at h; exact absurd h (by simp)

theorem convertBatch_ok_of_forall {column_names : List String} {rb : RecordBatch}
    (h : ∀ (j : Nat) (arr : ColumnArray), rb.columns[j]? = some arr →
      (∃ name, column_names[j]? = some name) ∧ arr.tryFromError = none) :
    ∃ df, convertBatch column_names rb = .ok df := by
  have hcols : ∀ (j : Nat) (arr : ColumnArray), rb.columns[j]? = some arr →
      ∃ s, convertColumn column_names (0 + j) arr = .ok s := by
    intro j arr hj
    obtain ⟨⟨name, hname⟩, hnone⟩ := h j arr hj
    refine ⟨⟨name, arr.dtype, arr.values⟩, ?_⟩
    rw [show 0 + j = j by omega]
    exact convertColumn_ok_iff.mpr ⟨name, hname, hnone, rfl⟩
  obtain ⟨ys, hys⟩ := mapWithIndexM_ok_of_forall hcols
  exact ⟨⟨ys⟩, by unfold convertBatch; rw [hys]⟩

theorem convertBatch_ok_of_narrow {column_names : List String} {rb : RecordBatch}
    (hw : rb.columns.length ≤ column_names.length)
    (hconv : ∀ arr ∈ rb.columns, arr.tryFromError = none) :
    ∃ df, convertBatch column_names rb = .ok df := by
  refine convertBatch_ok_of_forall (fun j arr hj => ?_)
  have hjlt : j < rb.columns.length := by
    by_contra hge
    rw [List.getElem?_eq_none (by omega)] at hj
    exact absurd hj (by simp)
  refine ⟨⟨column_names.get ⟨j, by omega⟩, List.getElem?_eq_getElem (by omega)⟩, ?_⟩
  exact hconv arr (List.getElem?_mem hj)

theorem convertBatch_error_at_width {column_names : List String} {rb : RecordBatch}
    (hw : column_names.length < rb.columns.length)
    (hconv : ∀ arr ∈ rb.columns, arr.tryFromError = none) :
    convertBatch column_names rb =
      .error (.Internal
        ("Column name not found for index " ++ toString column_names.length)) := by
  set k := column_names.length with hk
  have hkget : rb.columns[k]? = some (rb.columns.get ⟨k, by omega⟩) :=
    List.getElem?_eq_getElem (by omega)
  have herr : convertColumn column_names k (rb.columns.get ⟨k, by omega⟩) =
      .error (.Internal ("Column name not found for index " ++ toString k)) := by
    unfold convertColumn
    rw [List.getElem?_eq_none (by omega)]
  have hmap := mapWithIndexM_error_at (f := convertColumn column_names) (n := 0)
    hkget (by rw [show 0 + k = k by omega]; exact herr)
    (fun i arr hik hi => by
      refine ⟨⟨column_names.get ⟨i, by omega⟩, arr.dtype, arr.values⟩, ?_⟩
      rw [show 0 + i = i by omega]
      exact convertColumn_ok_iff.mpr
        ⟨column_names.get ⟨i, by omega⟩, List.getElem?_eq_getElem (by omega),
          hconv arr (List.getElem?_mem hi), rfl⟩)
  unfold convertBatch
  rw [hmap]

/-! Lemmas about the batch-sequence conversion. -/

theorem convertBatches_error_spec {column_names : List String} {rbs : List RecordBatch}
    {e : DuckDBPolarsError} (h : convertBatches column_names rbs = .error e) :
    ∃ rb ∈ rbs, convertBatch column_names rb = .error e := by
  induction rbs with
  | nil => exact absurd h (by simp [convertBatches])
  | cons rb rbs ih =>
    simp only [convertBatches] at h
    cases hb : convertBatch column_names rb with
    | error e' =>
      rw [hb] at h
      cases h
      exact ⟨rb, by simp, hb⟩
    | ok df =>
      rw [hb] at h
      cases hrec : convertBatches column_names rbs with
      | error e' =>
        rw [hrec] at h
        cases h
        obtain ⟨rb', hmem, hrb'⟩ := ih hrec
        exact ⟨rb', by simp [hmem], hrb'⟩
      | ok dfs => rw [hrec] at h; exact absurd h (by simp)

theorem convertBatches_ok_of_forall {column_names : List String} {rbs : List RecordBatch}
    (h : ∀ rb ∈ rbs, ∃ df, convertBatch column_names rb = .ok df) :
    ∃ dfs, convertBatches column_names rbs = .ok dfs := by
  induction rbs with
  | nil => exact ⟨[], rfl⟩
  | cons rb rbs ih =>
    obtain ⟨df, hdf⟩ := h rb (by simp)
    obtain ⟨dfs, hdfs⟩ := ih (fun rb' hmem => h rb' (by simp [hmem]))
    refine ⟨df :: dfs, ?_⟩
    simp only [convertBatches]
    rw [hdf, hdfs]

theorem convertBatches_ok_get {column_names : List String} {rbs : List RecordBatch}
    {dfs : List DataFrame} (h : convertBatches column_names rbs = .ok dfs) :
    dfs.length = rbs.length ∧
      ∀ (b : Nat) (rb : RecordBatch), rbs[b]? = some rb →
        ∃ df, dfs[b]? = some df ∧ convertBatch column_names rb = .ok df := by
  induction rbs generalizing dfs with
  | nil =>
    simp only [convertBatches] at h
    cases h
    exact ⟨rfl, by intro b rb hb; simp at hb⟩
  | cons rb rbs ih =>
    simp only [convertBatches] at h
    cases hb : convertBatch column_names rb with
    | error e => rw [hb] at h; exact absurd h (by simp)
    | ok df =>
      rw [hb] at h
      cases hrec : convertBatches column_names rbs with
      | error e => rw [hrec] at h; exact absurd h (by simp)
      | ok dfs' =>
        rw [hrec] at h
        cases h
        obtain ⟨hlen, hget⟩ := ih hrec
        refine ⟨by simp [hlen], ?_⟩
        intro b rb' hb'
        cases b with
        | zero =>
          simp at hb'
          subst hb'
          exact ⟨df, by simp, hb⟩
        | succ b =>
          simp only [List.getElem?_cons_succ] at hb' ⊢
          exact hget b rb' hb'

/-! Lemmas about unchecked vertical stacking. -/

theorem append_ok_spec {l r l2 : Series} (h : l.append r = .ok l2) :
    l.dtype = r.dtype ∧ l2 = ⟨l.name, l.dtype, l.values ++ r.values⟩ := by
  unfold Series.append at h
  split at h
  next hdt =>
    cases h
    exact ⟨hdt, rfl⟩
  next hdt => exact absurd h (by simp)

theorem append_ok_of_dtype {l r : Series} (h : l.dtype = r.dtype) :
    l.append r = .ok ⟨l.name, l.dtype, l.values ++ r.values⟩ := by
  unfold Series.append
  rw [if_pos h]

theorem vstackColumns_some_spec {ls rs out : List Series}
    (h : vstackColumns ls rs = some out) :
    out.length = ls.length ∧
    ∀ (j : Nat) (l : Series), ls[j]? = some l →
      ∃ l2, out[j]? = some l2 ∧ l2.name = l.name ∧ l2.dtype = l.dtype := by
  induction ls generalizing rs out with
  | nil =>
    have hout : out = [] := by
      cases rs <;> simp [vstackColumns] at h <;> exact h
    subst hout
    exact ⟨rfl, fun j l hl => by simp at hl⟩
  | cons l ls ih =>
    cases rs with
    | nil =>
      simp only [vstackColumns] at h
      cases h
      refine ⟨rfl, ?_⟩
      intro j x hx
      exact ⟨x, hx, rfl, rfl⟩
    | cons r rs =>
      simp only [vstackColumns] at h
      cases happ : l.append r with
      | error e => rw [happ] at h; exact absurd h (by simp)
      | ok l2 =>
        rw [happ] at h
        cases hrec : vstackColumns ls rs with
        | none => rw [hrec] at h; exact absurd h (by simp)
        | some rest =>
          rw [hrec] at h
          cases h
          obtain ⟨hlen, hget⟩ := ih hrec
          refine ⟨by simp [hlen], ?_⟩
          intro j x hx
          cases j with
          | zero =>
            simp at hx
            subst hx
            obtain ⟨-, hl2⟩ := append_ok_spec happ
            exact ⟨l2, by simp, by rw [hl2], by rw [hl2]⟩
          | succ j =>
            simp only [List.getElem?_cons_succ] at hx ⊢
            exact hget j x hx

theorem vstackColumns_getElem?_both {ls rs out : List Series} {j : Nat} {l r : Series}
    (h : vstackColumns ls rs = some out)
    (hl : ls[j]? = some l) (hr : rs[j]? = some r) :
    out[j]? = some ⟨l.name, l.dtype, l.values ++ r.values⟩ := by
  induction ls generalizing rs out j with
  | nil => simp at hl
  | cons l' ls ih =>
    cases rs with
    | nil => simp at hr
    | cons r' rs =>
      simp only [vstackColumns] at h
      cases happ : l'.append r' with
      | error e => rw [happ] at h; exact absurd h (by simp)
      | ok l2 =>
        rw [happ] at h
        cases hrec : vstackColumns ls rs with
        | none => rw [hrec] at h; exact absurd h (by simp)
        | some rest =>
          rw [hrec] at h
          cases h
          cases j with
          | zero =>
            simp at hl hr
            subst hl
            subst hr
            obtain ⟨-, hl2⟩ := append_ok_spec happ
            simp [hl2]
          | succ j =>
            simp only [List.getElem?_cons_succ] at hl hr ⊢
            exact ih hrec hl hr

theorem vstackColumns_isSome {ls rs : List Series}
    (hdt : ∀ (j : Nat) (l r : Series), ls[j]? = some l → rs[j]? = some r →
      l.dtype = r.dtype) :
    ∃ out, vstackColumns ls rs = some out := by
  induction ls generalizing rs with
  | nil => exact ⟨[], by cases rs <;> rfl⟩
  | cons l ls ih =>
    cases rs with
    | nil => exact ⟨l :: ls, rfl⟩
    | cons r rs =>
      have h0 : l.dtype = r.dtype := hdt 0 l r (by simp) (by simp)
      obtain ⟨rest, hrest⟩ := ih (fun j a b ha hb =>
        hdt (j + 1) a b (by simpa using ha) (by simpa using hb))
      refine ⟨⟨l.name, l.dtype, l.values ++ r.values⟩ :: rest, ?_⟩
      simp only [vstackColumns]
      rw [append_ok_of_dtype h0, hrest]

theorem vstackAll_some_spec {dfs : List DataFrame} {acc out : DataFrame}
    (h : vstackAll acc dfs = some out) :
    out.columns.length = acc.columns.length ∧
    ∀ (j : Nat) (s : Series), acc.columns[j]? = some s →
      ∃ s2, out.columns[j]? = some s2 ∧ s2.name = s.name ∧ s2.dtype = s.dtype := by
  induction dfs generalizing acc with
  | nil =>
    simp only [vstackAll] at h
    cases h
    exact ⟨rfl, fun j s hs => ⟨s, hs, rfl, rfl⟩⟩
  | cons df dfs ih =>
    simp only [vstackAll] at h
    cases hst : acc.vstackUnchecked df with
    | none => rw [hst] at h; exact absurd h (by simp)
    | some acc2 =>
      rw [hst] at h
      have hcols : vstackColumns acc.columns df.columns = some acc2.columns := by
        unfold DataFrame.vstackUnchecked at hst
        cases hvc : vstackColumns acc.columns df.columns with
        | none => rw [hvc] at hst; exact absurd hst (by simp)
        | some cols => rw [hvc] at hst; cases hst; rfl
      obtain ⟨hlen1, hget1⟩ := vstackColumns_some_spec hcols
      obtain ⟨hlen2, hget2⟩ := ih h
      refine ⟨by omega, ?_⟩
      intro j s hs
      obtain ⟨s1, hs1, hn1, hd1⟩ := hget1 j s hs
      obtain ⟨s2, hs2, hn2, hd2⟩ := hget2 j s1 hs1
      exact ⟨s2, hs2, by rw [hn2, hn1], by rw [hd2, hd1]⟩

theorem vstackAll_isSome {dfs : List DataFrame} {acc : DataFrame}
    (hdt : ∀ df ∈ dfs, ∀ (j : Nat) (l r : Series), acc.columns[j]? = some l →
      df.columns[j]? = some r → l.dtype = r.dtype) :
    ∃ out, vstackAll acc dfs = some out := by
  induction dfs generalizing acc with
  | nil => exact ⟨acc, rfl⟩
  | cons df dfs ih =>
    obtain ⟨cols2, hcols2⟩ := vstackColumns_isSome
      (fun j l r hl hr => hdt df (by simp) j l r hl hr)
    obtain ⟨hlen1, hget1⟩ := vstackColumns_some_spec hcols2
    have hdt2 : ∀ d ∈ dfs, ∀ (j : Nat) (l r : Series),
        (⟨cols2⟩ : DataFrame).columns[j]? = some l → d.columns[j]? = some r →
        l.dtype = r.dtype := by
      intro d hd j l r hl hr
      have hl2 : cols2[j]? = some l := hl
      have hj2 : j < cols2.length := getElem?_some_lt hl2
      have hjlt : j < acc.columns.length := by omega
      obtain ⟨s1, hs1, hn1, hd1⟩ := hget1 j (acc.columns.get ⟨j, by omega⟩)
        (List.getElem?_eq_getElem (by omega))
      rw [hl2] at hs1
      cases hs1
      rw [hd1]
      exact hdt d (by simp [hd]) j (acc.columns.get ⟨j, by omega⟩) r
        (List.getElem?_eq_getElem (by omega)) hr
    obtain ⟨out, hout⟩ := ih hdt2
    refine ⟨out, ?_⟩
    simp only [vstackAll]
    have hstep : acc.vstackUnchecked df = some ⟨cols2⟩ := by
      unfold DataFrame.vstackUnchecked
      rw [hcols2]
    rw [hstep]
    exact hout

theorem vstackAll_getElem? {dfs : List DataFrame} {acc out : DataFrame}
    (hall : ∀ df ∈ dfs, df.columns.length = acc.columns.length)
    (h : vstackAll acc dfs = some out) :
    ∀ (j : Nat) (s : Series), acc.columns[j]? = some s →
      out.columns[j]? = some ⟨s.name, s.dtype,
        s.values ++ (dfs.map (fun df => df.colValues j)).flatten⟩ := by
  induction dfs generalizing acc with
  | nil =>
    intro j s hs
    simp only [vstackAll] at h
    cases h
    simpa using hs
  | cons df dfs ih =>
    intro j s hs
    simp only [vstackAll] at h
    cases hst : acc.vstackUnchecked df with
    | none => rw [hst] at h; exact absurd h (by simp)
    | some acc2 =>
      rw [hst] at h
      have hcols : vstackColumns acc.columns df.columns = some acc2.columns := by
        unfold DataFrame.vstackUnchecked at hst
        cases hvc : vstackColumns acc.columns df.columns with
        | none => rw [hvc] at hst; exact absurd hst (by simp)
        | some cols => rw [hvc] at hst; cases hst; rfl
      have hjlt : j < acc.columns.length := getElem?_some_lt hs
      have hdfw : df.columns.length = acc.columns.length := hall df (by simp)
      have hr : df.columns[j]? = some (df.columns.get ⟨j, by omega⟩) :=
        List.getElem?_eq_getElem (by omega)
      have hstepj : acc2.columns[j]? =
          some ⟨s.name, s.dtype, s.values ++ (df.columns.get ⟨j, by omega⟩).values⟩ :=
        vstackColumns_getElem?_both hcols hs hr
      have hall2 : ∀ d ∈ dfs, d.columns.length = acc2.columns.length := by
        intro d hd
        rw [(vstackColumns_some_spec hcols).1]
        exact hall d (by simp [hd])
      have hout := ih hall2 h j _ hstepj
      rw [hout]
      simp [DataFrame.colValues, hr, List.append_assoc]

theorem colValues_zero_length (rb : RecordBatch) :
    (rb.colValues 0).length = rb.numRows := by
  rcases rb with ⟨sf, cols⟩
  cases cols <;> simp [RecordBatch.colValues, RecordBatch.numRows]

theorem height_eq_of_head {df : DataFrame} {s : Series}
    (h : df.columns[0]? = some s) : df.height = s.values.length := by
  rcases df with ⟨cols⟩
  cases cols with
  | nil => simp at h
  | cons c cs =>
    simp at h
    subst h
    rfl

theorem assembleOrPanic_eq_ok {dfs : List DataFrame} {out : DataFrame}
    (h : accumulate_dataframes_vertical_unchecked dfs = some out) :
    assembleOrPanic dfs = .ok out := by
  unfold assembleOrPanic
  rw [h]

theorem assembleOrPanic_ne_error (dfs : List DataFrame) (e : DuckDBPolarsError) :
    assembleOrPanic dfs ≠ .error e := by
  unfold assembleOrPanic
  cases accumulate_dataframes_vertical_unchecked dfs <;> simp

theorem segments_correspond {column_names : List String} {rbs : List RecordBatch}
    {dfs : List DataFrame} (hc : convertBatches column_names rbs = .ok dfs) :
    ∀ (b : Nat) (d : DataFrame), dfs[b]? = some d →
      ∃ rb, rbs[b]? = some rb ∧ convertBatch column_names rb = .ok d := by
  obtain ⟨hlen, hget⟩ := convertBatches_ok_get hc
  intro b d hb
  have hblt : b < dfs.length := getElem?_some_lt hb
  have hblt2 : b < rbs.length := by omega
  obtain ⟨d', hd', hok2⟩ := hget b (rbs.get ⟨b, by omega⟩)
    (List.getElem?_eq_getElem (by omega))
  rw [hb] at hd'
  cases hd'
  exact ⟨rbs.get ⟨b, by omega⟩, List.getElem?_eq_getElem (by omega), hok2⟩

theorem segment_dtype_eq {column_names : List String} {rb : RecordBatch}
    {df : DataFrame} (hok : convertBatch column_names rb = .ok df)
    {j : Nat} {s : Series} (hs : df.columns[j]? = some s) :
    ∃ arr, rb.columns[j]? = some arr ∧ s.dtype = arr.dtype := by
  obtain ⟨hlen, hget⟩ := convertBatch_ok_spec hok
  have hjlt : j < rb.columns.length := by
    have := getElem?_some_lt hs
    omega
  obtain ⟨name, -, hdfj⟩ := hget j (rb.columns.get ⟨j, by omega⟩)
    (List.getElem?_eq_getElem (by omega))
  rw [hs] at hdfj
  cases hdfj
  exact ⟨rb.columns.get ⟨j, by omega⟩, List.getElem?_eq_getElem (by omega), rfl⟩

theorem accumulate_isSome_of_dtypes {rb0 : RecordBatch} {rest : List RecordBatch}
    {dfs : List DataFrame}
    (hc : convertBatches rb0.schemaFields (rb0 :: rest) = .ok dfs)
    (hdt : ∀ rb ∈ rb0 :: rest, ∀ (j : Nat) (arr arr0 : ColumnArray),
      rb0.columns[j]? = some arr0 → rb.columns[j]? = some arr →
      arr.dtype = arr0.dtype) :
    ∃ out, accumulate_dataframes_vertical_unchecked dfs = some out := by
  obtain ⟨hlen, -⟩ := convertBatches_ok_get hc
  have hseg := segments_correspond hc
  cases dfs with
  | nil => simp at hlen
  | cons df0 dfs2 =>
    have hok0 : convertBatch rb0.schemaFields rb0 = .ok df0 := by
      obtain ⟨rb, hrb, hokb⟩ := hseg 0 df0 (by simp)
      simp at hrb
      subst hrb
      exact hokb
    have hdt2 : ∀ d ∈ dfs2, ∀ (j : Nat) (l r : Series),
        df0.columns[j]? = some l → d.columns[j]? = some r →
        l.dtype = r.dtype := by
      intro d hd j l r hl hr
      obtain ⟨b, hb⟩ := List.getElem?_of_mem hd
      obtain ⟨rb, hrb, hokb⟩ := hseg (b + 1) d (by simpa using hb)
      obtain ⟨arr0, harr0, hldt⟩ := segment_dtype_eq hok0 hl
      obtain ⟨arr, harr, hrdt⟩ := segment_dtype_eq hokb hr
      rw [hldt, hrdt]
      exact (hdt rb (List.getElem?_mem hrb) j arr arr0 harr0 harr).symm
    obtain ⟨out, hout⟩ := vstackAll_isSome hdt2
    exact ⟨out, hout⟩

theorem dtypeAgree_of_uniform {rb0 : RecordBatch} {rest : List RecordBatch}
    {t : DType}
    (h : ∀ rb ∈ rb0 :: rest, ∀ arr ∈ rb.columns, arr.dtype = t) :
    ∀ rb ∈ rb0 :: rest, ∀ (j : Nat) (arr arr0 : ColumnArray),
      rb0.columns[j]? = some arr0 → rb.columns[j]? = some arr →
      arr.dtype = arr0.dtype := by
  intro rb hmem j arr arr0 h0 h1
  rw [h rb hmem arr (List.getElem?_mem h1),
    h rb0 (by simp) arr0 (List.getElem?_mem h0)]

/-! The claims. -/

/-- Claim C2, as stated, is false: on the empty batch sequence the function
does not return an `Internal` error result — `rbs[0]` panics first, so no
result of any kind is produced. -/
theorem claim_C2_counterexample :
    (arrowrs_record_batches_to_polars_df []).isInternalError = false ∧
      arrowrs_record_batches_to_polars_df [] =
        .panicked "index out of bounds: the len is 0 but the index is 0" :=
  ⟨rfl, rfl⟩

/-- Claim C2 (amended): for the empty input (a zero-batch record-batch
sequence), `arrowrs_record_batches_to_polars_df` neither returns an
`Internal` error result nor an empty table: indexing `rbs[0]` panics with
Rust's index-out-of-bounds message before any conversion starts. -/
theorem claim_C2 :
    arrowrs_record_batches_to_polars_df [] =
      .panicked "index out of bounds: the len is 0 but the index is 0" := rfl

/-- Claim C4, as stated, is false: the function does not terminate with a
tagged result on every input and can panic — on the empty batch sequence
`rbs[0]` panics, and on a non-empty sequence whose batches disagree on a
column's data type the unchecked vertical stacking panics in the
`Series::append(..).expect(..)` of `vstack_mut_unchecked`, even though
every per-column conversion succeeded. -/
theorem claim_C4_counterexample :
    (arrowrs_record_batches_to_polars_df []).isPanicked = true ∧
    (arrowrs_record_batches_to_polars_df [exBatchA, exBatchStr]).isPanicked = true :=
  ⟨rfl, rfl⟩

/-- Claim C4 (amended): for every non-empty input record-batch sequence
whose batches' column data types agree positionally with the first batch's
columns (the uniform-schema invariant the unchecked assembler trusts),
`arrowrs_record_batches_to_polars_df` terminates with a tagged result — an
`ok` table or an `error` carrying one of the three `DuckDBPolarsError`
variants — and never panics.  Outside that invariant the function can
panic: the empty sequence panics at `rbs[0]`, and a positional data-type
mismatch panics inside the unchecked vertical stacking. -/
theorem claim_C4 (rb0 : RecordBatch) (rest : List RecordBatch)
    (hdt : ∀ rb ∈ rb0 :: rest, ∀ (j : Nat) (arr arr0 : ColumnArray),
      rb0.columns[j]? = some arr0 → rb.columns[j]? = some arr →
      arr.dtype = arr0.dtype) :
    ((∃ df, arrowrs_record_batches_to_polars_df (rb0 :: rest) = .ok df) ∨
      (∃ e, arrowrs_record_batches_to_polars_df (rb0 :: rest) = .error e)) ∧
    (arrowrs_record_batches_to_polars_df (rb0 :: rest)).isPanicked = false := by
  simp only [arrowrs_record_batches_to_polars_df]
  cases hc : convertBatches rb0.schemaFields (rb0 :: rest) with
  | error e => exact ⟨Or.inr ⟨e, rfl⟩, rfl⟩
  | ok dfs =>
    obtain ⟨out, hout⟩ := accumulate_isSome_of_dtypes hc hdt
    constructor
    · exact Or.inl ⟨out, assembleOrPanic_eq_ok hout⟩
    · show (assembleOrPanic dfs).isPanicked = false
      rw [assembleOrPanic_eq_ok hout]
      rfl

/-- Witness for claim C4 at a concrete one-batch input. -/
theorem claim_C4_witness :
    (∀ rb ∈ [exBatchA], ∀ (j : Nat) (arr arr0 : ColumnArray),
      exBatchA.columns[j]? = some arr0 → rb.columns[j]? = some arr →
      arr.dtype = arr0.dtype) ∧
    (((∃ df, arrowrs_record_batches_to_polars_df [exBatchA] = .ok df) ∨
      (∃ e, arrowrs_record_batches_to_polars_df [exBatchA] = .error e)) ∧
    (arrowrs_record_batches_to_polars_df [exBatchA]).isPanicked = false) :=
  ⟨dtypeAgree_of_uniform (t := DType.int64) (by decide),
    claim_C4 exBatchA [] (dtypeAgree_of_uniform (t := DType.int64) (by decide))⟩

/-- Claim C8: when `Series::try_from` rejects a reinterpreted array, the
per-column conversion returns the `Polars` variant, whose `source` field is
the underlying library error and whose message embeds that error's display
(prefixed with `"Polars error: "`). -/
theorem claim_C8 (column_names : List String) (i : Nat) (name : String)
    (arr : ColumnArray) (e : PolarsError)
    (hname : column_names[i]? = some name)
    (hfail : Series.tryFrom name arr = .error e) :
    convertColumn column_names i arr =
      .error (.Polars ("Polars error: " ++ e.msg) e) := by
  unfold convertColumn
  rw [hname]
  show Except.mapError DuckDBPolarsError.fromPolars (Series.tryFrom name arr) = _
  rw [hfail]
  rfl

/-- Witness for claim C8 at a concrete failing column. -/
theorem claim_C8_witness :
    ((["a"] : List String)[0]? = some "a") ∧
    (Series.tryFrom "a" exColBad = .error { msg := "boom" }) ∧
    convertColumn ["a"] 0 exColBad =
      .error (.Polars ("Polars error: " ++ "boom") { msg := "boom" }) :=
  ⟨rfl, rfl, claim_C8 ["a"] 0 "a" exColBad { msg := "boom" } rfl rfl⟩

/-- Claim C3: on a successfully converted batch, the segment's column at
position `i` is named by position `i` of the shared name list (taken from
the first batch's schema), and the batch's own schema fields play no role in
the conversion. -/
theorem claim_C3 (column_names : List String) (rb : RecordBatch) (df : DataFrame)
    (hok : convertBatch column_names rb = .ok df) :
    (∀ (j : Nat) (s : Series), df.columns[j]? = some s →
        column_names[j]? = some s.name) ∧
    (∀ fields : List String,
        convertBatch column_names { rb with schemaFields := fields } =
          convertBatch column_names rb) := by
  obtain ⟨hlen, hget⟩ := convertBatch_ok_spec hok
  refine ⟨?_, fun fields => rfl⟩
  intro j s hs
  have hjlt : j < rb.columns.length := by
    have := getElem?_some_lt hs
    omega
  obtain ⟨name, hname, hdfj⟩ :=
    hget j (rb.columns.get ⟨j, by omega⟩) (List.getElem?_eq_getElem (by omega))
  rw [hs] at hdfj
  cases hdfj
  exact hname

/-- Witness for claim C3 at a concrete two-column batch whose own schema
fields differ from the shared name list. -/
theorem claim_C3_witness :
    (convertBatch ["a", "b"] exBatchXY = .ok exSegAB) ∧
    ((∀ (j : Nat) (s : Series), exSegAB.columns[j]? = some s →
        (["a", "b"] : List String)[j]? = some s.name) ∧
      (∀ fields : List String,
          convertBatch ["a", "b"] { exBatchXY with schemaFields := fields } =
            convertBatch ["a", "b"] exBatchXY)) :=
  ⟨rfl, claim_C3 ["a", "b"] exBatchXY exSegAB rfl⟩

theorem convertBatches_error_at_width {column_names : List String}
    {rbs : List RecordBatch}
    (hconv : ∀ rb ∈ rbs, ∀ arr ∈ rb.columns, arr.tryFromError = none)
    (hover : ∃ rb ∈ rbs, column_names.length < rb.columns.length) :
    convertBatches column_names rbs =
      .error (.Internal
        ("Column name not found for index " ++ toString column_names.length)) := by
  induction rbs with
  | nil => simp at hover
  | cons rb rbs ih =>
    by_cases hw : column_names.length < rb.columns.length
    · have hb := convertBatch_error_at_width hw (hconv rb (by simp))
      simp only [convertBatches]
      rw [hb]
    · obtain ⟨rb', hmem, hw'⟩ := hover
      have hmem' : rb' ∈ rbs := by
        cases List.mem_cons.mp hmem with
        | inl h => subst h; omega
        | inr h => exact h
      have hnar : rb.columns.length ≤ column_names.length := by omega
      obtain ⟨df, hdf⟩ := convertBatch_ok_of_narrow hnar (hconv rb (by simp))
      have hrec := ih (fun r hr arr ha => hconv r (by simp [hr]) arr ha) ⟨rb', hmem', hw'⟩
      simp only [convertBatches]
      rw [hdf, hrec]

/-- Claim C5: when some batch has a column at a position at or beyond the
width of the first batch's schema (the known name-list width) and no column
conversion fails on its own, the whole conversion returns the `Internal`
error naming the first out-of-range index — the schema width itself, which
is the position of the first column that has no name. -/
theorem claim_C5 (rb0 : RecordBatch) (rest : List RecordBatch)
    (hconv : ∀ rb ∈ rb0 :: rest, ∀ arr ∈ rb.columns, arr.tryFromError = none)
    (hover : ∃ rb ∈ rb0 :: rest, rb0.schemaFields.length < rb.columns.length) :
    arrowrs_record_batches_to_polars_df (rb0 :: rest) =
      .error (.Internal ("Column name not found for index " ++
        toString rb0.schemaFields.length)) := by
  simp only [arrowrs_record_batches_to_polars_df]
  rw [convertBatches_error_at_width hconv hover]

/-- Witness for claim C5: one batch whose schema names one column but which
carries two columns. -/
theorem claim_C5_witness :
    (∀ rb ∈ [exBatchWide], ∀ arr ∈ rb.columns, arr.tryFromError = none) ∧
    (∃ rb ∈ [exBatchWide], exBatchWide.schemaFields.length < rb.columns.length) ∧
    arrowrs_record_batches_to_polars_df [exBatchWide] =
      .error (.Internal ("Column name not found for index " ++
        toString exBatchWide.schemaFields.length)) :=
  ⟨by decide, by decide, claim_C5 exBatchWide [] (by decide) (by decide)⟩

/-- Claim C6: if any single column of any batch fails to convert (against
the shared name list of the first batch), the whole function returns an
error — itself the conversion error of some failing column — and returns no
table at all. -/
theorem claim_C6 (rb0 : RecordBatch) (rest : List RecordBatch)
    (hfail : ∃ rb ∈ rb0 :: rest, ∃ (i : Nat) (arr : ColumnArray),
      rb.columns[i]? = some arr ∧
      ∃ e, convertColumn rb0.schemaFields i arr = .error e) :
    ∃ e, arrowrs_record_batches_to_polars_df (rb0 :: rest) = .error e ∧
      (∃ rb ∈ rb0 :: rest, ∃ (i : Nat) (arr : ColumnArray),
        rb.columns[i]? = some arr ∧
        convertColumn rb0.schemaFields i arr = .error e) ∧
      ∀ df, arrowrs_record_batches_to_polars_df (rb0 :: rest) ≠ .ok df := by
  obtain ⟨rb, hmem, i, arr, hi, e0, he0⟩ := hfail
  cases hc : convertBatches rb0.schemaFields (rb0 :: rest) with
  | ok dfs =>
    exfalso
    obtain ⟨hlen, hget⟩ := convertBatches_ok_get hc
    obtain ⟨b, hb⟩ := List.getElem?_of_mem hmem
    obtain ⟨df, -, hok⟩ := hget b rb hb
    obtain ⟨-, hcols⟩ := convertBatch_ok_spec hok
    obtain ⟨name, -, -⟩ := hcols i arr hi
    have hmap : mapWithIndexM (convertColumn rb0.schemaFields) 0 rb.columns =
        .ok df.columns := by
      unfold convertBatch at hok
      cases hm : mapWithIndexM (convertColumn rb0.schemaFields) 0 rb.columns with
      | error e => rw [hm] at hok; exact absurd hok (by simp)
      | ok s_vec => rw [hm] at hok; cases hok; rfl
    obtain ⟨s, hs, hokcol⟩ := mapWithIndexM_ok_get hmap i arr hi
    rw [show 0 + i = i by omega] at hokcol
    rw [he0] at hokcol
    exact absurd hokcol (by simp)
  | error e =>
    obtain ⟨rb', hmem', hrb'⟩ := convertBatches_error_spec hc
    obtain ⟨i', arr', hi', hcol'⟩ := convertBatch_error_spec hrb'
    refine ⟨e, ?_, ⟨rb', hmem', i', arr', hi', hcol'⟩, ?_⟩
    · simp only [arrowrs_record_batches_to_polars_df]
      rw [hc]
    · intro df hdf
      simp only [arrowrs_record_batches_to_polars_df] at hdf
      rw [hc] at hdf
      exact absurd hdf (by simp)

/-- Witness for claim C6: a single batch whose only column is rejected by
the series construction. -/
theorem claim_C6_witness :
    (∃ rb ∈ [exBatchBad], ∃ (i : Nat) (arr : ColumnArray),
      rb.columns[i]? = some arr ∧
      ∃ e, convertColumn exBatchBad.schemaFields i arr = .error e) ∧
    ∃ e, arrowrs_record_batches_to_polars_df [exBatchBad] = .error e ∧
      (∃ rb ∈ [exBatchBad], ∃ (i : Nat) (arr : ColumnArray),
        rb.columns[i]? = some arr ∧
        convertColumn exBatchBad.schemaFields i arr = .error e) ∧
      ∀ df, arrowrs_record_batches_to_polars_df [exBatchBad] ≠ .ok df :=
  ⟨⟨exBatchBad, by simp, 0, exColBad, rfl,
      .Polars ("Polars error: " ++ "boom") { msg := "boom" }, rfl⟩,
    claim_C6 exBatchBad []
      ⟨exBatchBad, by simp, 0, exColBad, rfl,
        .Polars ("Polars error: " ++ "boom") { msg := "boom" }, rfl⟩⟩

/-- Claim C10: when the sequence is non-empty, the first batch satisfies the
arrow invariant that its schema width equals its column count, and every
batch has at most as many columns as the first, the name-lookup failure
branch is unreachable: the function never returns an `Internal` error. -/
theorem claim_C10 (rb0 : RecordBatch) (rest : List RecordBatch)
    (hinv : rb0.schemaFields.length = rb0.columns.length)
    (hw : ∀ rb ∈ rb0 :: rest, rb.columns.length ≤ rb0.columns.length) :
    ∀ msg : String, arrowrs_record_batches_to_polars_df (rb0 :: rest) ≠
      .error (.Internal msg) := by
  intro msg hcontra
  simp only [arrowrs_record_batches_to_polars_df] at hcontra
  cases hc : convertBatches rb0.schemaFields (rb0 :: rest) with
  | ok dfs =>
    rw [hc] at hcontra
    exact assembleOrPanic_ne_error dfs (.Internal msg) hcontra
  | error e =>
    rw [hc] at hcontra
    cases hcontra
    obtain ⟨rb, hmem, hrb⟩ := convertBatches_error_spec hc
    obtain ⟨i, arr, hi, hcol⟩ := convertBatch_error_spec hrb
    cases convertColumn_error_cases hcol with
    | inl hnone =>
      obtain ⟨hlookup, -⟩ := hnone
      have hilt : i < rb.columns.length := getElem?_some_lt hi
      have hile : rb.columns.length ≤ rb0.columns.length := hw rb hmem
      rw [List.getElem?_eq_getElem (by omega)] at hlookup
      exact absurd hlookup (by simp)
    | inr hpolars =>
      obtain ⟨name, pe, -, -, habs⟩ := hpolars
      exact absurd habs (by simp)

/-- Witness for claim C10 at two batches, the second narrower than the
first. -/
theorem claim_C10_witness :
    (exBatchAB.schemaFields.length = exBatchAB.columns.length) ∧
    (∀ rb ∈ [exBatchAB, exBatchNarrow],
      rb.columns.length ≤ exBatchAB.columns.length) ∧
    ∀ msg : String, arrowrs_record_batches_to_polars_df [exBatchAB, exBatchNarrow] ≠
      .error (.Internal msg) :=
  ⟨by decide, by decide, claim_C10 exBatchAB [exBatchNarrow] (by decide) (by decide)⟩

/-- Claim C9: a batch narrower than the first batch (fewer columns than the
known schema width, all of them converting successfully) is not rejected:
its segment is produced with exactly its own columns, and — provided the
other batches also convert and the column data types agree positionally, so
that the assembler's trusted invariant is not otherwise violated — the whole
function succeeds, performing no width-agreement check before the unchecked
vertical concatenation. -/
theorem claim_C9 (rb0 : RecordBatch) (rest : List RecordBatch) (rb : RecordBatch)
    (hmem : rb ∈ rb0 :: rest)
    (hinv : rb0.schemaFields.length = rb0.columns.length)
    (hnarrow : rb.columns.length < rb0.columns.length)
    (hwidths : ∀ rb' ∈ rb0 :: rest, rb'.columns.length ≤ rb0.columns.length)
    (hconv : ∀ rb' ∈ rb0 :: rest, ∀ arr ∈ rb'.columns, arr.tryFromError = none)
    (hdt : ∀ rb' ∈ rb0 :: rest, ∀ (j : Nat) (arr arr0 : ColumnArray),
      rb0.columns[j]? = some arr0 → rb'.columns[j]? = some arr →
      arr.dtype = arr0.dtype) :
    (∃ df, convertBatch rb0.schemaFields rb = .ok df ∧
      df.columns.length = rb.columns.length ∧
      ∀ (j : Nat) (arr : ColumnArray), rb.columns[j]? = some arr →
        ∃ s, df.columns[j]? = some s ∧ s.values = arr.values) ∧
    ∃ t, arrowrs_record_batches_to_polars_df (rb0 :: rest) = .ok t := by
  constructor
  · have hnar : rb.columns.length ≤ rb0.schemaFields.length := by omega
    obtain ⟨df, hdf⟩ := convertBatch_ok_of_narrow hnar (hconv rb hmem)
    obtain ⟨hlen, hget⟩ := convertBatch_ok_spec hdf
    refine ⟨df, hdf, hlen, ?_⟩
    intro j arr hj
    obtain ⟨name, -, hdfj⟩ := hget j arr hj
    exact ⟨⟨name, arr.dtype, arr.values⟩, hdfj, rfl⟩
  · have hall : ∀ rb' ∈ rb0 :: rest, ∃ df, convertBatch rb0.schemaFields rb' = .ok df := by
      intro rb' hmem'
      have hnar : rb'.columns.length ≤ rb0.schemaFields.length := by
        have := hwidths rb' hmem'
        omega
      exact convertBatch_ok_of_narrow hnar (hconv rb' hmem')
    obtain ⟨dfs, hdfs⟩ := convertBatches_ok_of_forall hall
    obtain ⟨out, hout⟩ := accumulate_isSome_of_dtypes hdfs hdt
    refine ⟨out, ?_⟩
    simp only [arrowrs_record_batches_to_polars_df]
    rw [hdfs]
    exact assembleOrPanic_eq_ok hout

/-- Witness for claim C9: a two-column first batch followed by a one-column
batch of the same leading data type. -/
theorem claim_C9_witness :
    (exBatchNarrow ∈ [exBatchAB, exBatchNarrow]) ∧
    (∀ rb' ∈ [exBatchAB, exBatchNarrow], ∀ (j : Nat) (arr arr0 : ColumnArray),
      exBatchAB.columns[j]? = some arr0 → rb'.columns[j]? = some arr →
      arr.dtype = arr0.dtype) ∧
    ((∃ df, convertBatch exBatchAB.schemaFields exBatchNarrow = .ok df ∧
      df.columns.length = exBatchNarrow.columns.length ∧
      ∀ (j : Nat) (arr : ColumnArray), exBatchNarrow.columns[j]? = some arr →
        ∃ s, df.columns[j]? = some s ∧ s.values = arr.values) ∧
    ∃ t, arrowrs_record_batches_to_polars_df [exBatchAB, exBatchNarrow] = .ok t) :=
  ⟨by decide,
    dtypeAgree_of_uniform (t := DType.int64) (by decide),
    claim_C9 exBatchAB [exBatchNarrow] exBatchNarrow
      (by decide) (by decide) (by decide) (by decide) (by decide)
      (dtypeAgree_of_uniform (t := DType.int64) (by decide))⟩

theorem height_of_no_columns {df : DataFrame} (h : df.columns = []) :
    df.height = 0 := by
  rcases df with ⟨cols⟩
  simp at h
  subst h
  rfl

/-- Claim C1: for a non-empty batch sequence in which every batch's column
count equals the first batch's schema width (the uniform-schema invariant
delivered by the query engine) and every batch is rectangular, a conversion
that returns a table yields: column names and order equal to the first
batch's schema, each column's values the concatenation of the corresponding
per-batch column values in original batch order, and total row count the sum
of the per-batch row counts. -/
theorem claim_C1 (rb0 : RecordBatch) (rest : List RecordBatch) (df : DataFrame)
    (hw : ∀ rb ∈ rb0 :: rest, rb.columns.length = rb0.schemaFields.length)
    (hrect : ∀ rb ∈ rb0 :: rest, ∀ arr ∈ rb.columns, arr.values.length = rb.numRows)
    (hok : arrowrs_record_batches_to_polars_df (rb0 :: rest) = .ok df) :
    df.columns.map Series.name = rb0.schemaFields ∧
    (∀ (j : Nat) (name : String) (arr0 : ColumnArray),
        rb0.schemaFields[j]? = some name → rb0.columns[j]? = some arr0 →
        df.columns[j]? = some ⟨name, arr0.dtype,
          ((rb0 :: rest).map (fun rb => rb.colValues j)).flatten⟩) ∧
    df.height = ((rb0 :: rest).map RecordBatch.numRows).sum := by
  have hconvEx : ∃ dfs, convertBatches rb0.schemaFields (rb0 :: rest) = .ok dfs ∧
      accumulate_dataframes_vertical_unchecked dfs = some df := by
    simp only [arrowrs_record_batches_to_polars_df] at hok
    cases hc : convertBatches rb0.schemaFields (rb0 :: rest) with
    | error e => rw [hc] at hok; exact absurd hok (by simp)
    | ok dfs =>
      rw [hc] at hok
      have hok2 : assembleOrPanic dfs = .ok df := hok
      unfold assembleOrPanic at hok2
      cases hacc : accumulate_dataframes_vertical_unchecked dfs with
      | none => rw [hacc] at hok2; exact absurd hok2 (by simp)
      | some d =>
        rw [hacc] at hok2
        cases hok2
        exact ⟨dfs, rfl, hacc⟩
  obtain ⟨dfs, hdfs, hdfe⟩ := hconvEx
  obtain ⟨hlen, hget⟩ := convertBatches_ok_get hdfs
  cases dfs with
  | nil => simp at hlen
  | cons df0 dfs' =>
    have hvst : vstackAll df0 dfs' = some df := hdfe
    have hseg := segments_correspond hdfs
    have hwseg : ∀ d ∈ df0 :: dfs', d.columns.length = rb0.schemaFields.length := by
      intro d hd
      obtain ⟨b, hb⟩ := List.getElem?_of_mem hd
      obtain ⟨rb, hrb, hokb⟩ := hseg b d hb
      obtain ⟨hl, -⟩ := convertBatch_ok_spec hokb
      rw [hl]
      exact hw rb (List.getElem?_mem hrb)
    have hsegcol : ∀ (b : Nat) (d : DataFrame) (rb : RecordBatch),
        (df0 :: dfs')[b]? = some d → (rb0 :: rest)[b]? = some rb →
        ∀ (j : Nat) (name : String) (arr : ColumnArray),
          rb0.schemaFields[j]? = some name → rb.columns[j]? = some arr →
          d.columns[j]? = some ⟨name, arr.dtype, rb.colValues j⟩ := by
      intro b d rb hb hrb j name arr hj harr
      obtain ⟨rb', hrb', hokb⟩ := hseg b d hb
      rw [hrb] at hrb'
      cases hrb'
      obtain ⟨-, hcols⟩ := convertBatch_ok_spec hokb
      obtain ⟨name', hname', hdj⟩ := hcols j arr harr
      rw [hj] at hname'
      cases hname'
      have hcv : rb.colValues j = arr.values := by
        simp [RecordBatch.colValues, harr]
      rw [hdj, hcv]
    have hall : ∀ d ∈ dfs', d.columns.length = df0.columns.length := by
      intro d hd
      rw [hwseg df0 (by simp)]
      exact hwseg d (by simp [hd])
    have hmain : ∀ (j : Nat) (name : String) (arr0 : ColumnArray),
        rb0.schemaFields[j]? = some name → rb0.columns[j]? = some arr0 →
        df.columns[j]? = some ⟨name, arr0.dtype,
          ((rb0 :: rest).map (fun rb => rb.colValues j)).flatten⟩ := by
      intro j name arr0 hj harr0
      have hd0 : df0.columns[j]? = some ⟨name, arr0.dtype, rb0.colValues j⟩ :=
        hsegcol 0 df0 rb0 (by simp) (by simp) j name arr0 hj harr0
      have hfold := vstackAll_getElem? hall hvst j ⟨name, arr0.dtype, rb0.colValues j⟩ hd0
      rw [hfold]
      have heq : dfs'.map (fun d => d.colValues j) =
          rest.map (fun rb => rb.colValues j) := by
        apply List.ext_getElem?
        intro b
        rw [List.getElem?_map, List.getElem?_map]
        cases hb : dfs'[b]? with
        | none =>
          have hbge : dfs'.length ≤ b := by
            by_contra hlt
            rw [List.getElem?_eq_getElem (by omega)] at hb
            exact absurd hb (by simp)
          have hbge2 : rest.length ≤ b := by
            have hlen2 := hlen
            simp only [List.length_cons] at hlen2
            omega
          rw [List.getElem?_eq_none hbge2]
          rfl
        | some d =>
          have hb' : (df0 :: dfs')[b + 1]? = some d := by simpa using hb
          obtain ⟨rb, hrb, hokb⟩ := hseg (b + 1) d hb'
          have hrb2 : rest[b]? = some rb := by simpa using hrb
          rw [hrb2]
          have hjlt : j < rb.columns.length := by
            have h1 := getElem?_some_lt hj
            have h2 := hw rb (List.getElem?_mem hrb)
            omega
          have harr : rb.columns[j]? = some (rb.columns.get ⟨j, by omega⟩) :=
            List.getElem?_eq_getElem (by omega)
          have hdcol := hsegcol (b + 1) d rb hb' hrb j name
            (rb.columns.get ⟨j, by omega⟩) hj harr
          simp [DataFrame.colValues, hdcol]
      rw [heq]
      simp
    refine ⟨?_, fun j name arr0 hj harr0 => hmain j name arr0 hj harr0, ?_⟩
    · apply List.ext_getElem?
      intro j
      rw [List.getElem?_map]
      cases hj : rb0.schemaFields[j]? with
      | some name =>
        have hjlt : j < rb0.columns.length := by
          have h1 := getElem?_some_lt hj
          have h2 := hw rb0 (by simp)
          omega
        rw [hmain j name (rb0.columns.get ⟨j, by omega⟩) hj
          (List.getElem?_eq_getElem (by omega))]
        rfl
      | none =>
        have hjge : rb0.schemaFields.length ≤ j := by
          by_contra hlt
          rw [List.getElem?_eq_getElem (by omega)] at hj
          exact absurd hj (by simp)
        have hwidth : df.columns.length = rb0.schemaFields.length := by
          rw [(vstackAll_some_spec hvst).1]
          exact hwseg df0 (by simp)
        rw [List.getElem?_eq_none (by omega)]
        rfl
    · cases hsf : rb0.schemaFields with
      | nil =>
        have hsum : ((rb0 :: rest).map RecordBatch.numRows).sum = 0 := by
          apply List.sum_eq_zero
          intro x hx
          obtain ⟨rb, hmem, hxe⟩ := List.mem_map.mp hx
          have hwrb := hw rb hmem
          rw [hsf] at hwrb
          simp only [List.length_nil] at hwrb
          subst hxe
          rcases rb with ⟨sf, cols⟩
          cases cols with
          | nil => rfl
          | cons c cs => simp at hwrb
        rw [hsum]
        apply height_of_no_columns
        apply List.length_eq_zero.mp
        rw [(vstackAll_some_spec hvst).1]
        rw [hwseg df0 (by simp), hsf]
        rfl
      | cons n0 ns =>
        have h0 : rb0.schemaFields[0]? = some n0 := by rw [hsf]; simp
        have h0lt : 0 < rb0.columns.length := by
          have h2 := hw rb0 (by simp)
          rw [hsf] at h2
          simp at h2
          omega
        have harr0 : rb0.columns[0]? = some (rb0.columns.get ⟨0, by omega⟩) :=
          List.getElem?_eq_getElem (by omega)
        have hmain0 := hmain 0 n0 (rb0.columns.get ⟨0, by omega⟩) h0 harr0
        have hh := height_eq_of_head hmain0
        rw [hh]
        show (((rb0 :: rest).map (fun rb => rb.colValues 0)).flatten).length = _
        rw [List.length_flatten, List.map_map]
        congr 1
        apply List.map_congr_left
        intro rb hmem
        simpa using colValues_zero_length rb

/-- Witness for claim C1 at two uniform two-column batches. -/
theorem claim_C1_witness :
    (∀ rb ∈ [exBatchAB, exBatchAB2], rb.columns.length = exBatchAB.schemaFields.length) ∧
    (∀ rb ∈ [exBatchAB, exBatchAB2], ∀ arr ∈ rb.columns,
      arr.values.length = rb.numRows) ∧
    (arrowrs_record_batches_to_polars_df [exBatchAB, exBatchAB2] = .ok exTable) ∧
    (exTable.columns.map Series.name = exBatchAB.schemaFields ∧
    (∀ (j : Nat) (name : String) (arr0 : ColumnArray),
        exBatchAB.schemaFields[j]? = some name → exBatchAB.columns[j]? = some arr0 →
        exTable.columns[j]? = some ⟨name, arr0.dtype,
          (([exBatchAB, exBatchAB2]).map (fun rb => rb.colValues j)).flatten⟩) ∧
    exTable.height = (([exBatchAB, exBatchAB2]).map RecordBatch.numRows).sum) :=
  ⟨by decide, by decide, by decide,
    claim_C1 exBatchAB [exBatchAB2] exTable (by decide) (by decide) (by decide)⟩

/-! Lemmas about the scheduled (completion-order) semantics. -/

theorem firstSchedError_some_spec {f : Nat → α → Except ε β} {xs : List α}
    {sched : List Nat} {e : ε} (h : firstSchedError f xs sched = some e) :
    ∃ (i : Nat) (x : α), xs[i]? = some x ∧ f i x = .error e := by
  induction sched with
  | nil => simp [firstSchedError] at h
  | cons i rest ih =>
    simp only [firstSchedError] at h
    split at h
    next hx => exact ih h
    next x hx =>
      split at h
      next e0 hf =>
        cases h
        exact ⟨i, x, hx, hf⟩
      next y hf => exact ih h

theorem convertBatchSched_agree (c : List Nat) (column_names : List String)
    (rb : RecordBatch) :
    convertBatchSched c column_names rb = convertBatch column_names rb ∨
    ((∃ e, convertBatchSched c column_names rb = .error e) ∧
      (∃ e, convertBatch column_names rb = .error e)) := by
  unfold convertBatchSched parMapCollect
  cases hfe : firstSchedError (convertColumn column_names) rb.columns c with
  | none =>
    left
    unfold convertBatch
    rfl
  | some e =>
    right
    refine ⟨⟨e, rfl⟩, ?_⟩
    obtain ⟨i, x, hx, hfx⟩ := firstSchedError_some_spec hfe
    cases hm : mapWithIndexM (convertColumn column_names) 0 rb.columns with
    | error e2 => exact ⟨e2, by unfold convertBatch; rw [hm]⟩
    | ok ys =>
      obtain ⟨y, -, hok⟩ := mapWithIndexM_ok_get hm i x hx
      rw [show 0 + i = i by omega] at hok
      rw [hok] at hfx
      exact absurd hfx (by simp)

theorem convertBatches_ok_ext {column_names : List String} {rbs : List RecordBatch}
    {dfs : List DataFrame} (hlen : dfs.length = rbs.length)
    (h : ∀ (b : Nat) (rb : RecordBatch), rbs[b]? = some rb →
      ∃ df, dfs[b]? = some df ∧ convertBatch column_names rb = .ok df) :
    convertBatches column_names rbs = .ok dfs := by
  induction rbs generalizing dfs with
  | nil =>
    cases dfs with
    | nil => rfl
    | cons d ds => simp at hlen
  | cons rb rbs ih =>
    cases dfs with
    | nil => simp at hlen
    | cons df dfs' =>
      obtain ⟨df0, hdf0, hok0⟩ := h 0 rb (by simp)
      simp at hdf0
      subst hdf0
      have hrec := ih (by simpa using hlen) (fun b rb' hb => by
        obtain ⟨d, hd, hokd⟩ := h (b + 1) rb' (by simpa using hb)
        exact ⟨d, by simpa using hd, hokd⟩)
      simp only [convertBatches]
      rw [hok0, hrec]

/-- Claim C7: the converter is deterministic and order-preserving under any
completion schedule.  For every pair of valid schedules (the batch schedule
a permutation of the batch indices, each column schedule a permutation of
that batch's column indices), the scheduled run agrees with the sequential
run: it returns the very same table when the sequential run succeeds (so the
output's column and row order match the input order however the parallel
work completes), errors exactly when the sequential run errors, and panics
exactly when the sequential run panics. -/
theorem claim_C7 (bsched : List Nat) (csched : Nat → List Nat)
    (rbs : List RecordBatch)
    (hb : bsched.Perm (List.range rbs.length))
    (hc : ∀ (b : Nat) (rb : RecordBatch), rbs[b]? = some rb →
      (csched b).Perm (List.range rb.columns.length)) :
    (∀ df, arrowrs_record_batches_to_polars_df_sched bsched csched rbs = .ok df ↔
        arrowrs_record_batches_to_polars_df rbs = .ok df) ∧
    ((∃ e, arrowrs_record_batches_to_polars_df_sched bsched csched rbs = .error e) ↔
      (∃ e, arrowrs_record_batches_to_polars_df rbs = .error e)) ∧
    (∀ m, arrowrs_record_batches_to_polars_df_sched bsched csched rbs = .panicked m ↔
      arrowrs_record_batches_to_polars_df rbs = .panicked m) := by
  cases rbs with
  | nil => exact ⟨fun df => Iff.rfl, Iff.rfl, fun m => Iff.rfl⟩
  | cons rb0 rest =>
    have hagree :
        parMapCollect bsched
            (fun b rb => convertBatchSched (csched b) rb0.schemaFields rb)
            (rb0 :: rest) =
          convertBatches rb0.schemaFields (rb0 :: rest) ∨
        ((∃ e, parMapCollect bsched
            (fun b rb => convertBatchSched (csched b) rb0.schemaFields rb)
            (rb0 :: rest) = .error e) ∧
          (∃ e, convertBatches rb0.schemaFields (rb0 :: rest) = .error e)) := by
      unfold parMapCollect
      cases hfe : firstSchedError
          (fun b rb => convertBatchSched (csched b) rb0.schemaFields rb)
          (rb0 :: rest) bsched with
      | some e =>
        right
        refine ⟨⟨e, rfl⟩, ?_⟩
        obtain ⟨b, rb, hrb, hFb⟩ := firstSchedError_some_spec hfe
        have hbatcherr : ∃ e2, convertBatch rb0.schemaFields rb = .error e2 := by
          cases convertBatchSched_agree (csched b) rb0.schemaFields rb with
          | inl heq => exact ⟨e, by rw [← heq]; exact hFb⟩
          | inr hboth => exact hboth.2
        obtain ⟨e2, he2⟩ := hbatcherr
        cases hcv : convertBatches rb0.schemaFields (rb0 :: rest) with
        | error e3 => exact ⟨e3, rfl⟩
        | ok dfs =>
          exfalso
          obtain ⟨-, hget⟩ := convertBatches_ok_get hcv
          obtain ⟨d, -, hokd⟩ := hget b rb hrb
          rw [hokd] at he2
          exact absurd he2 (by simp)
      | none =>
        cases hm : mapWithIndexM
            (fun b rb => convertBatchSched (csched b) rb0.schemaFields rb)
            0 (rb0 :: rest) with
        | ok dfs =>
          left
          have hlen := mapWithIndexM_ok_length hm
          refine (convertBatches_ok_ext hlen ?_).symm
          intro b rb hrb
          obtain ⟨d, hd, hFb⟩ := mapWithIndexM_ok_get hm b rb hrb
          rw [show 0 + b = b by omega] at hFb
          refine ⟨d, hd, ?_⟩
          cases convertBatchSched_agree (csched b) rb0.schemaFields rb with
          | inl heq => rw [← heq]; exact hFb
          | inr hboth =>
            obtain ⟨⟨e1, he1⟩, -⟩ := hboth
            rw [he1] at hFb
            exact absurd hFb (by simp)
        | error e =>
          right
          refine ⟨⟨e, rfl⟩, ?_⟩
          obtain ⟨b, rb, hrb, hFb⟩ := mapWithIndexM_error_spec hm
          rw [show 0 + b = b by omega] at hFb
          have hbatcherr : ∃ e2, convertBatch rb0.schemaFields rb = .error e2 := by
            cases convertBatchSched_agree (csched b) rb0.schemaFields rb with
            | inl heq => exact ⟨e, by rw [← heq]; exact hFb⟩
            | inr hboth => exact hboth.2
          obtain ⟨e2, he2⟩ := hbatcherr
          cases hcv : convertBatches rb0.schemaFields (rb0 :: rest) with
          | error e3 => exact ⟨e3, rfl⟩
          | ok dfs =>
            exfalso
            obtain ⟨-, hget⟩ := convertBatches_ok_get hcv
            obtain ⟨d, -, hokd⟩ := hget b rb hrb
            rw [hokd] at he2
            exact absurd he2 (by simp)
    simp only [arrowrs_record_batches_to_polars_df_sched,
      arrowrs_record_batches_to_polars_df]
    cases hagree with
    | inl heq =>
      rw [heq]
      exact ⟨fun df => Iff.rfl, Iff.rfl, fun m => Iff.rfl⟩
    | inr hboth =>
      obtain ⟨⟨e1, he1⟩, ⟨e2, he2⟩⟩ := hboth
      rw [he1, he2]
      refine ⟨fun df => by simp, ?_, fun m => by simp⟩
      constructor
      · intro
        exact ⟨e2, rfl⟩
      · intro
        exact ⟨e1, rfl⟩

/-- Witness for claim C7 at a one-batch input under the identity
schedules. -/
theorem claim_C7_witness :
    (([0] : List Nat).Perm (List.range [exBatchA].length) ∧
      ∀ (b : Nat) (rb : RecordBatch), [exBatchA][b]? = some rb →
        ([0] : List Nat).Perm (List.range rb.columns.length)) ∧
    ((∀ df, arrowrs_record_batches_to_polars_df_sched [0] (fun _ => [0]) [exBatchA] =
          .ok df ↔
        arrowrs_record_batches_to_polars_df [exBatchA] = .ok df) ∧
    ((∃ e, arrowrs_record_batches_to_polars_df_sched [0] (fun _ => [0]) [exBatchA] =
          .error e) ↔
      (∃ e, arrowrs_record_batches_to_polars_df [exBatchA] = .error e)) ∧
    (∀ m, arrowrs_record_batches_to_polars_df_sched [0] (fun _ => [0]) [exBatchA] =
          .panicked m ↔
      arrowrs_record_batches_to_polars_df [exBatchA] = .panicked m)) :=
  ⟨⟨by decide, by
      intro b rb hb
      cases b with
      | zero =>
        simp at hb
        subst hb
        decide
      | succ b => simp at hb⟩,
    claim_C7 [0] (fun _ => [0]) [exBatchA] (by decide) (by
      intro b rb hb
      cases b with
      | zero =>
        simp at hb
        subst hb
        decide
      | succ b => simp at hb)⟩

end DuckdbPolars
